import Mathlib

/-!
Shallow embedding of `NoCopyRingFifo` from
`src/no_copy_ring_fifo/no_copy_ring_fifo.h` (namespace `FifoTemplates`).

Modelling conventions:
* `size_t` is modelled as `Nat`.  Every subtraction performed by the C++
  code is guarded (the guard is part of the same function), so unsigned
  wraparound never occurs on the states the code reaches; `Nat` truncated
  subtraction therefore agrees with `size_t` subtraction everywhere the
  theorems below look.
* `std::span<T>` views into the ring buffer are modelled as offset/length
  pairs (`Span`) into the `ringBuffer` list; `subspan(off, count)` becomes
  `⟨off, count⟩`.
* C++ exceptions become `Except` values.  Because `GetDataBlock` mutates
  the cursor and the callers mutate counters before calling it, each
  operation returns the resulting state alongside the `Except`, so a
  hypothetical escaping exception still leaves a well-defined state.
* each `throw` site gets its own `FifoError` constructor;
  `FifoError.cppClass` records which C++ exception class the site throws.
-/

namespace FifoTemplates

/-- Span models a `std::span<T>` view into the ring buffer as an
offset/length pair; `std::span.empty()` is `len = 0`. -/
structure Span where
  off : Nat
  len : Nat
deriving Repr, DecidableEq

/-- DataBlock mirrors `NoCopyRingFifo::DataBlock`: two spans, the second
non-empty only when the block wraps around the end of the buffer. -/
structure DataBlock where
  span0 : Span
  span1 : Span
deriving Repr, DecidableEq

/-- DataBlock default constructor `DataBlock()`: both spans empty. -/
def DataBlock.invalid : DataBlock := ⟨⟨0, 0⟩, ⟨0, 0⟩⟩

/-- DataBlock constructor `DataBlock(span0)`: second span empty. -/
def DataBlock.single (s0 : Span) : DataBlock := ⟨s0, ⟨0, 0⟩⟩

/-- DataBlock constructor `DataBlock(span0, span1)`. -/
def DataBlock.double (s0 s1 : Span) : DataBlock := ⟨s0, s1⟩

/-- C++ `isSplit()`: `spans[1].empty() == false`. -/
def DataBlock.isSplit (db : DataBlock) : Bool := !(db.span1.len == 0)

/-- C++ `isValid()`: `spans[0].empty() == false`. -/
def DataBlock.isValid (db : DataBlock) : Bool := !(db.span0.len == 0)

/-- C++ exception classes used by the source. -/
inductive CppExcClass where
  | overflowError
  | underflowError
deriving Repr, DecidableEq

/-- One constructor per `throw` site in the source. -/
inductive FifoError where
  /-- thrown by `Reserve` : "Not enough free space in FIFO for reserve". -/
  | reserveOverflow
  /-- thrown by `Commit` : "Not enough reserved space in FIFO for commit". -/
  | commitOverflow
  /-- thrown by `ReadBlock` : "Read larger than committed size". -/
  | readUnderflow
  /-- thrown by `GetDataBlock` : "Requested span size larger than FIFO size". -/
  | blockOverflow
deriving Repr, DecidableEq

/-- The C++ exception class thrown at each site (`std::overflow_error` for
Reserve, Commit and GetDataBlock; `std::underflow_error` for ReadBlock). -/
def FifoError.cppClass : FifoError → CppExcClass
  | .reserveOverflow => .overflowError
  | .commitOverflow => .overflowError
  | .readUnderflow => .underflowError
  | .blockOverflow => .overflowError

/-- NoCopyRingFifo state: the backing vector and the four counters.
`_ringBuffer` is a `List T` (its `length` is `_ringBuffer.size()`, which
the constructor sets to `maxSize` and nothing ever resizes). -/
structure NoCopyRingFifo (T : Type) where
  ringBuffer : List T
  readIndex : Nat
  writeIndex : Nat
  reserved : Nat
  committed : Nat
deriving Repr, DecidableEq

/-- Constructor `NoCopyRingFifo(size)`: `_ringBuffer.resize(size)`
(default-filled) and all counters zero. -/
def NoCopyRingFifo.init (t : T) (size : Nat) : NoCopyRingFifo T :=
  ⟨List.replicate size t, 0, 0, 0, 0⟩

/-- GetDataBlock, factored over the buffer size and the cursor it receives
by reference; it returns the block together with the new cursor value
(unchanged on the error and `size == 0` paths, exactly as in the source). -/
def getDataBlock (bufSize index size : Nat) :
    Except FifoError (DataBlock × Nat) :=
  if size > bufSize then
    .error .blockOverflow
  else if size == 0 then
    .ok (DataBlock.invalid, index)
  else
    let remainingBufferSize := bufSize - index
    let oldIndex := index
    let newIndex := (index + size) % bufSize
    if size > remainingBufferSize then
      .ok (DataBlock.double ⟨oldIndex, remainingBufferSize⟩ ⟨0, newIndex⟩,
           newIndex)
    else
      .ok (DataBlock.single ⟨oldIndex, size⟩, newIndex)

namespace NoCopyRingFifo

variable {T : Type}

/-- C++ `ReservableSize()`: `_ringBuffer.size() - (_reserved + _committed)`. -/
def ReservableSize (s : NoCopyRingFifo T) : Nat :=
  s.ringBuffer.length - (s.reserved + s.committed)

/-- C++ `CommitableSize()`: `_reserved`. -/
def CommitableSize (s : NoCopyRingFifo T) : Nat := s.reserved

/-- C++ `ReadableSize()`: `_committed`. -/
def ReadableSize (s : NoCopyRingFifo T) : Nat := s.committed

/-- C++ `Reserve(size)`: guard, then `_reserved += size`, then
`GetDataBlock(_writeIndex, size)`.  Note the counter is bumped before the
inner call, so a (never-taken) inner failure would leave it bumped. -/
def Reserve (s : NoCopyRingFifo T) (size : Nat) :
    Except FifoError DataBlock × NoCopyRingFifo T :=
  if size > s.ReservableSize then
    (.error .reserveOverflow, s)
  else
    let s1 := { s with reserved := s.reserved + size }
    match getDataBlock s1.ringBuffer.length s1.writeIndex size with
    | .error e => (.error e, s1)
    | .ok (db, newWriteIndex) => (.ok db, { s1 with writeIndex := newWriteIndex })

/-- C++ `Commit(size)`: guard, then `_committed += size; _reserved -= size`. -/
def Commit (s : NoCopyRingFifo T) (size : Nat) :
    Except FifoError Unit × NoCopyRingFifo T :=
  if size > s.CommitableSize then
    (.error .commitOverflow, s)
  else
    (.ok (), { s with committed := s.committed + size,
                      reserved := s.reserved - size })

/-- C++ `ReadBlock(size)`: guard against `_committed`, then
`_committed -= size`, then `GetDataBlock(_readIndex, size)`. -/
def ReadBlock (s : NoCopyRingFifo T) (size : Nat) :
    Except FifoError DataBlock × NoCopyRingFifo T :=
  if size > s.committed then
    (.error .readUnderflow, s)
  else
    let s1 := { s with committed := s.committed - size }
    match getDataBlock s1.ringBuffer.length s1.readIndex size with
    | .error e => (.error e, s1)
    | .ok (db, newReadIndex) => (.ok db, { s1 with readIndex := newReadIndex })

/-- C++ `Reset()`: zero the two cursors and the two counters. -/
def Reset (s : NoCopyRingFifo T) : NoCopyRingFifo T :=
  { s with readIndex := 0, writeIndex := 0, reserved := 0, committed := 0 }

end NoCopyRingFifo

/-- Overwrite `vs.length` elements of `buf` starting at `off` with `vs`
(what an external writer does through one span). -/
def listOverwrite {T : Type} (buf : List T) (off : Nat) (vs : List T) : List T :=
  buf.take off ++ vs ++ buf.drop (off + vs.length)

/-- Write `vals` through a DataBlock: the first `span0.len` values go into
the first view, the rest (clipped to `span1.len`) into the second view. -/
def writeDataBlock {T : Type} (buf : List T) (db : DataBlock) (vals : List T) :
    List T :=
  listOverwrite (listOverwrite buf db.span0.off (vals.take db.span0.len))
    db.span1.off ((vals.drop db.span0.len).take db.span1.len)

/-- Read a DataBlock out of the buffer: view 0 followed by view 1. -/
def readDataBlock {T : Type} (buf : List T) (db : DataBlock) : List T :=
  (buf.drop db.span0.off).take db.span0.len ++
    (buf.drop db.span1.off).take db.span1.len

/-- One externally observable transition of a FIFO object: any of the four
mutating member functions with any argument, or an external writer storing
through previously obtained views (modelled as any length-preserving
rewrite of the buffer contents). -/
inductive Step (T : Type) : NoCopyRingFifo T → NoCopyRingFifo T → Prop where
  | reserve (s : NoCopyRingFifo T) (size : Nat) : Step T s (s.Reserve size).2
  | commit (s : NoCopyRingFifo T) (size : Nat) : Step T s (s.Commit size).2
  | readBlock (s : NoCopyRingFifo T) (size : Nat) : Step T s (s.ReadBlock size).2
  | reset (s : NoCopyRingFifo T) : Step T s s.Reset
  | extWrite (s : NoCopyRingFifo T) (buf : List T)
      (h : buf.length = s.ringBuffer.length) :
      Step T s { s with ringBuffer := buf }

/-- States reachable from a freshly constructed FIFO of capacity `C`. -/
inductive Reachable (T : Type) (C : Nat) : NoCopyRingFifo T → Prop where
  | init (buf : List T) (h : buf.length = C) :
      Reachable T C ⟨buf, 0, 0, 0, 0⟩
  | step {s s' : NoCopyRingFifo T} :
      Reachable T C s → Step T s s' → Reachable T C s'

/-- States reachable with no successful `ReadBlock` of positive size since
the last `Reset` (or since construction). -/
inductive ReachableNoRead (T : Type) (C : Nat) : NoCopyRingFifo T → Prop where
  | init (buf : List T) (h : buf.length = C) :
      ReachableNoRead T C ⟨buf, 0, 0, 0, 0⟩
  | reset {s : NoCopyRingFifo T} :
      Reachable T C s → ReachableNoRead T C s.Reset
  | reserve {s : NoCopyRingFifo T} (size : Nat) :
      ReachableNoRead T C s → ReachableNoRead T C (s.Reserve size).2
  | commit {s : NoCopyRingFifo T} (size : Nat) :
      ReachableNoRead T C s → ReachableNoRead T C (s.Commit size).2
  | readZero {s : NoCopyRingFifo T} :
      ReachableNoRead T C s → ReachableNoRead T C (s.ReadBlock 0).2
  | readFail {s : NoCopyRingFifo T} (size : Nat) :
      ReachableNoRead T C s → size > s.ReadableSize →
      ReachableNoRead T C (s.ReadBlock size).2
  | extWrite {s : NoCopyRingFifo T} (buf : List T)
      (h : buf.length = s.ringBuffer.length) :
      ReachableNoRead T C s → ReachableNoRead T C { s with ringBuffer := buf }

/-- State invariant maintained by all operations: fixed buffer length,
bounded counters, the write cursor determined by the read cursor and the
counters, and the read cursor in range. -/
def Inv {T : Type} (C : Nat) (s : NoCopyRingFifo T) : Prop :=
  s.ringBuffer.length = C ∧
  s.reserved + s.committed ≤ C ∧
  s.writeIndex = (s.readIndex + s.reserved + s.committed) % C ∧
  (s.readIndex < C ∨ s.readIndex = 0)

/-! Case equations for `getDataBlock`. -/

theorem getDataBlock_zero (bufSize index : Nat) :
    getDataBlock bufSize index 0 = .ok (DataBlock.invalid, index) := by
  simp [getDataBlock]

theorem getDataBlock_big (bufSize index size : Nat) (h : size > bufSize) :
    getDataBlock bufSize index size = .error .blockOverflow := by
  unfold getDataBlock
  rw [if_pos h]

theorem getDataBlock_nosplit (bufSize index size : Nat) (h0 : 0 < size)
    (hle : size ≤ bufSize - index) :
    getDataBlock bufSize index size =
      .ok (DataBlock.single ⟨index, size⟩, (index + size) % bufSize) := by
  unfold getDataBlock
  rw [if_neg (by omega), if_neg (by simpa using h0.ne'), if_neg (by omega)]

theorem getDataBlock_split (bufSize index size : Nat) (h0 : 0 < size)
    (hgt : bufSize - index < size) (hle : size ≤ bufSize) :
    getDataBlock bufSize index size =
      .ok (DataBlock.double ⟨index, bufSize - index⟩ ⟨0, (index + size) % bufSize⟩,
           (index + size) % bufSize) := by
  unfold getDataBlock
  rw [if_neg (by omega), if_neg (by simpa using h0.ne'), if_pos (by omega)]

theorem getDataBlock_index (bufSize index size : Nat) (h0 : 0 < size)
    (hle : size ≤ bufSize) :
    ∃ db, getDataBlock bufSize index size = .ok (db, (index + size) % bufSize) := by
  rcases le_or_lt size (bufSize - index) with h | h
  · exact ⟨_, getDataBlock_nosplit bufSize index size h0 h⟩
  · exact ⟨_, getDataBlock_split bufSize index size h0 h hle⟩

/-- Wraparound modulus computed explicitly. -/
theorem wrap_mod (C i n : Nat) (hi : i < C) (hn : n ≤ C) (hw : C - i < n) :
    (i + n) % C = i + n - C := by
  have h1 : C ≤ i + n := by omega
  rw [Nat.mod_eq_sub_mod h1, Nat.mod_eq_of_lt (by omega)]

/-! Equations for the member functions. -/

namespace NoCopyRingFifo

variable {T : Type}

theorem Reserve_fail {s : NoCopyRingFifo T} {size : Nat}
    (h : size > s.ReservableSize) :
    s.Reserve size = (.error .reserveOverflow, s) := by
  unfold Reserve
  rw [if_pos h]

theorem Reserve_ok_eq (s : NoCopyRingFifo T) {size : Nat} {db : DataBlock}
    {wi : Nat} (hg : ¬ size > s.ReservableSize)
    (hdb : getDataBlock s.ringBuffer.length s.writeIndex size = .ok (db, wi)) :
    s.Reserve size =
      (.ok db, { s with reserved := s.reserved + size, writeIndex := wi }) := by
  unfold Reserve
  rw [if_neg hg]
  show (match getDataBlock s.ringBuffer.length s.writeIndex size with
        | Except.error e =>
            ((Except.error e : Except FifoError DataBlock),
             { s with reserved := s.reserved + size })
        | Except.ok (db, newWriteIndex) =>
            (Except.ok db, { s with reserved := s.reserved + size,
                                    writeIndex := newWriteIndex })) = _
  rw [hdb]

theorem Commit_fail {s : NoCopyRingFifo T} {size : Nat}
    (h : size > s.CommitableSize) :
    s.Commit size = (.error .commitOverflow, s) := by
  unfold Commit
  rw [if_pos h]

theorem Commit_ok (s : NoCopyRingFifo T) {size : Nat}
    (h : ¬ size > s.CommitableSize) :
    s.Commit size = (.ok (), { s with committed := s.committed + size,
                                      reserved := s.reserved - size }) := by
  unfold Commit
  rw [if_neg h]

theorem ReadBlock_fail {s : NoCopyRingFifo T} {size : Nat}
    (h : size > s.committed) :
    s.ReadBlock size = (.error .readUnderflow, s) := by
  unfold ReadBlock
  rw [if_pos h]

theorem ReadBlock_ok_eq (s : NoCopyRingFifo T) {size : Nat} {db : DataBlock}
    {ri : Nat} (hg : ¬ size > s.committed)
    (hdb : getDataBlock s.ringBuffer.length s.readIndex size = .ok (db, ri)) :
    s.ReadBlock size =
      (.ok db, { s with committed := s.committed - size, readIndex := ri }) := by
  unfold ReadBlock
  rw [if_neg hg]
  show (match getDataBlock s.ringBuffer.length s.readIndex size with
        | Except.error e =>
            ((Except.error e : Except FifoError DataBlock),
             { s with committed := s.committed - size })
        | Except.ok (db, newReadIndex) =>
            (Except.ok db, { s with committed := s.committed - size,
                                    readIndex := newReadIndex })) = _
  rw [hdb]

theorem Reserve_zero (s : NoCopyRingFifo T) :
    s.Reserve 0 = (.ok DataBlock.invalid, s) := by
  rw [Reserve_ok_eq s (by omega) (getDataBlock_zero _ _)]
  cases s
  simp

theorem Commit_zero (s : NoCopyRingFifo T) : s.Commit 0 = (.ok (), s) := by
  rw [Commit_ok s (by omega)]
  cases s
  simp

theorem ReadBlock_zero (s : NoCopyRingFifo T) :
    s.ReadBlock 0 = (.ok DataBlock.invalid, s) := by
  rw [ReadBlock_ok_eq s (by omega) (getDataBlock_zero _ _)]
  cases s
  simp

end NoCopyRingFifo

/-! Invariant preservation. -/

theorem inv_fresh {T : Type} (buf : List T) (C : Nat) (h : buf.length = C) :
    Inv C (⟨buf, 0, 0, 0, 0⟩ : NoCopyRingFifo T) :=
  ⟨h, by simp, by simp, Or.inr rfl⟩

theorem inv_reserve {T : Type} {C : Nat} {s : NoCopyRingFifo T} (size : Nat)
    (h : Inv C s) : Inv C (s.Reserve size).2 := by
  obtain ⟨hlen, hsum, hw, hr⟩ := h
  by_cases hg : size > s.ReservableSize
  · rw [NoCopyRingFifo.Reserve_fail hg]
    exact ⟨hlen, hsum, hw, hr⟩
  · have hsz : size + (s.reserved + s.committed) ≤ C := by
      unfold NoCopyRingFifo.ReservableSize at hg
      rw [hlen] at hg
      omega
    rcases Nat.eq_zero_or_pos size with rfl | h0
    · rw [NoCopyRingFifo.Reserve_ok_eq s hg (getDataBlock_zero _ _)]
      refine ⟨hlen, ?_, ?_, hr⟩
      · show s.reserved + 0 + s.committed ≤ C
        omega
      · show s.writeIndex = (s.readIndex + (s.reserved + 0) + s.committed) % C
        simpa using hw
    · obtain ⟨db, hdb⟩ :=
        getDataBlock_index s.ringBuffer.length s.writeIndex size h0 (by omega)
      rw [NoCopyRingFifo.Reserve_ok_eq s hg hdb]
      refine ⟨hlen, ?_, ?_, hr⟩
      · show s.reserved + size + s.committed ≤ C
        omega
      · show (s.writeIndex + size) % s.ringBuffer.length =
          (s.readIndex + (s.reserved + size) + s.committed) % C
        rw [hlen, hw, Nat.mod_add_mod]
        congr 1
        omega

theorem inv_commit {T : Type} {C : Nat} {s : NoCopyRingFifo T} (size : Nat)
    (h : Inv C s) : Inv C (s.Commit size).2 := by
  obtain ⟨hlen, hsum, hw, hr⟩ := h
  by_cases hg : size > s.CommitableSize
  · rw [NoCopyRingFifo.Commit_fail hg]
    exact ⟨hlen, hsum, hw, hr⟩
  · have hsz : size ≤ s.reserved := by
      unfold NoCopyRingFifo.CommitableSize at hg
      omega
    rw [NoCopyRingFifo.Commit_ok s hg]
    refine ⟨hlen, ?_, ?_, hr⟩
    · show s.reserved - size + (s.committed + size) ≤ C
      omega
    · show s.writeIndex = (s.readIndex + (s.reserved - size) + (s.committed + size)) % C
      rw [hw]
      congr 1
      omega

theorem inv_readBlock {T : Type} {C : Nat} {s : NoCopyRingFifo T} (size : Nat)
    (h : Inv C s) : Inv C (s.ReadBlock size).2 := by
  obtain ⟨hlen, hsum, hw, hr⟩ := h
  by_cases hg : size > s.committed
  · rw [NoCopyRingFifo.ReadBlock_fail hg]
    exact ⟨hlen, hsum, hw, hr⟩
  · rcases Nat.eq_zero_or_pos size with rfl | h0
    · rw [NoCopyRingFifo.ReadBlock_ok_eq s hg (getDataBlock_zero _ _)]
      refine ⟨hlen, ?_, ?_, hr⟩
      · show s.reserved + (s.committed - 0) ≤ C
        omega
      · show s.writeIndex = (s.readIndex + s.reserved + (s.committed - 0)) % C
        simpa using hw
    · have hle : size ≤ s.ringBuffer.length := by omega
      obtain ⟨db, hdb⟩ :=
        getDataBlock_index s.ringBuffer.length s.readIndex size h0 hle
      rw [NoCopyRingFifo.ReadBlock_ok_eq s hg hdb]
      refine ⟨hlen, ?_, ?_, ?_⟩
      · show s.reserved + (s.committed - size) ≤ C
        omega
      · show s.writeIndex =
          ((s.readIndex + size) % s.ringBuffer.length + s.reserved +
            (s.committed - size)) % C
        rw [hlen, Nat.add_assoc, Nat.mod_add_mod, hw]
        congr 1
        omega
      · show (s.readIndex + size) % s.ringBuffer.length < C ∨
          (s.readIndex + size) % s.ringBuffer.length = 0
        left
        rw [hlen]
        exact Nat.mod_lt _ (by omega)

theorem inv_reset {T : Type} {C : Nat} {s : NoCopyRingFifo T}
    (h : Inv C s) : Inv C s.Reset := by
  obtain ⟨hlen, -, -, -⟩ := h
  exact ⟨hlen, by simp [NoCopyRingFifo.Reset],
    by simp [NoCopyRingFifo.Reset], Or.inr rfl⟩

theorem inv_extWrite {T : Type} {C : Nat} {s : NoCopyRingFifo T}
    (buf : List T) (hb : buf.length = s.ringBuffer.length)
    (h : Inv C s) : Inv C { s with ringBuffer := buf } := by
  obtain ⟨hlen, hsum, hw, hr⟩ := h
  exact ⟨by rw [← hlen]; exact hb, hsum, hw, hr⟩

theorem inv_step {T : Type} {C : Nat} {s s' : NoCopyRingFifo T}
    (hstep : Step T s s') (h : Inv C s) : Inv C s' := by
  cases hstep with
  | reserve size => exact inv_reserve size h
  | commit size => exact inv_commit size h
  | readBlock size => exact inv_readBlock size h
  | reset => exact inv_reset h
  | extWrite buf hb => exact inv_extWrite buf hb h

theorem inv_reachable {T : Type} {C : Nat} {s : NoCopyRingFifo T}
    (h : Reachable T C s) : Inv C s := by
  induction h with
  | init buf hb => exact inv_fresh buf C hb
  | step _ hstep ih => exact inv_step hstep ih

theorem reachableNoRead_reachable {T : Type} {C : Nat} {s : NoCopyRingFifo T}
    (h : ReachableNoRead T C s) : Reachable T C s := by
  induction h with
  | init buf hb => exact .init buf hb
  | reset hr => exact .step hr (.reset _)
  | reserve size _ ih => exact .step ih (.reserve _ size)
  | commit size _ ih => exact .step ih (.commit _ size)
  | readZero _ ih => exact .step ih (.readBlock _ 0)
  | readFail size _ _ ih => exact .step ih (.readBlock _ size)
  | extWrite buf hb _ ih => exact .step ih (.extWrite _ buf hb)

/-- Successful guard implies the whole call succeeds (the inner
`GetDataBlock` guard cannot fire), for `Reserve`. -/
theorem Reserve_succeeds {T : Type} (s : NoCopyRingFifo T) (size : Nat)
    (hg : size ≤ s.ReservableSize) :
    ∃ db, (s.Reserve size).1 = Except.ok db := by
  rcases Nat.eq_zero_or_pos size with rfl | h0
  · exact ⟨_, by rw [NoCopyRingFifo.Reserve_zero]⟩
  · have hle : size ≤ s.ringBuffer.length := by
      unfold NoCopyRingFifo.ReservableSize at hg
      omega
    obtain ⟨db, hdb⟩ :=
      getDataBlock_index s.ringBuffer.length s.writeIndex size h0 hle
    exact ⟨db, by rw [NoCopyRingFifo.Reserve_ok_eq s (by omega) hdb]⟩

/-- Successful guard implies the whole call succeeds, for `ReadBlock`;
this needs the state invariant (`committed` may not exceed the buffer
length). -/
theorem ReadBlock_succeeds {T : Type} {C : Nat} (s : NoCopyRingFifo T)
    (hInv : Inv C s) (size : Nat) (hg : size ≤ s.committed) :
    ∃ db, (s.ReadBlock size).1 = Except.ok db := by
  rcases Nat.eq_zero_or_pos size with rfl | h0
  · exact ⟨_, by rw [NoCopyRingFifo.ReadBlock_zero]⟩
  · obtain ⟨hlen, hsum, -, -⟩ := hInv
    have hle : size ≤ s.ringBuffer.length := by omega
    obtain ⟨db, hdb⟩ :=
      getDataBlock_index s.ringBuffer.length s.readIndex size h0 hle
    exact ⟨db, by rw [NoCopyRingFifo.ReadBlock_ok_eq s (by omega) hdb]⟩

/-- C2: for a successful region-split request of size `L` with
`1 ≤ L ≤ capacity` starting at cursor `i`: if `L ≤ tail` (where
`tail = capacity - i`) the result is one view `[i, i+L)` with the cursor
advanced to `(i+L) mod capacity`; otherwise two views `[i, capacity)` and
`[0, L-tail)` with the cursor advanced to `L - tail`; in both cases the
view lengths add up to `L`. -/
theorem getDataBlock_region_splitting (C i L : Nat) (hi : i < C)
    (h1 : 1 ≤ L) (h2 : L ≤ C) :
    (L ≤ C - i →
      getDataBlock C i L = .ok (DataBlock.single ⟨i, L⟩, (i + L) % C)) ∧
    (C - i < L →
      getDataBlock C i L =
        .ok (DataBlock.double ⟨i, C - i⟩ ⟨0, L - (C - i)⟩, L - (C - i))) ∧
    (∀ db newIndex, getDataBlock C i L = .ok (db, newIndex) →
      db.span0.len + db.span1.len = L) := by
  have hmod : C - i < L → (i + L) % C = L - (C - i) := by
    intro hsplit
    rw [wrap_mod C i L hi h2 hsplit]
    omega
  refine ⟨?_, ?_, ?_⟩
  · intro hfit
    exact getDataBlock_nosplit C i L h1 hfit
  · intro hsplit
    rw [getDataBlock_split C i L h1 hsplit h2, hmod hsplit]
  · intro db newIndex hok
    rcases le_or_lt L (C - i) with hfit | hsplit
    · rw [getDataBlock_nosplit C i L h1 hfit] at hok
      obtain ⟨rfl, -⟩ : DataBlock.single ⟨i, L⟩ = db ∧ (i + L) % C = newIndex := by
        simpa using hok
      simp [DataBlock.single]
    · rw [getDataBlock_split C i L h1 hsplit h2] at hok
      obtain ⟨rfl, -⟩ : DataBlock.double ⟨i, C - i⟩ ⟨0, (i + L) % C⟩ = db ∧
          (i + L) % C = newIndex := by
        simpa using hok
      show C - i + (i + L) % C = L
      rw [hmod hsplit]
      omega

/-- C2 witness: capacity 4; a non-wrapping request at `i = 1` and a
wrapping one at `i = 3`. -/
theorem getDataBlock_region_splitting_witness :
    getDataBlock 4 1 2 = .ok (DataBlock.single ⟨1, 2⟩, 3) ∧
    getDataBlock 4 3 2 = .ok (DataBlock.double ⟨3, 1⟩ ⟨0, 1⟩, 1) :=
  ⟨(getDataBlock_region_splitting 4 1 2 (by decide) (by decide) (by decide)).1
      (by decide),
   (getDataBlock_region_splitting 4 3 2 (by decide) (by decide) (by decide)).2.1
      (by decide)⟩

/-- C3: in every state reachable from a fresh FIFO of capacity `C` by any
sequence of Reserve/Commit/ReadBlock/Reset calls (failing ones included),
`reservedCount + committedCount ≤ C`. -/
theorem reachable_reserved_add_committed_le {T : Type} (C : Nat)
    (s : NoCopyRingFifo T) (h : Reachable T C s) :
    s.reserved + s.committed ≤ C :=
  (inv_reachable h).2.1

/-- C3 witness: reachable state after `Reserve 2` on a fresh capacity-3
FIFO. -/
theorem reachable_reserved_add_committed_le_witness :
    ((⟨[0, 0, 0], 0, 0, 0, 0⟩ : NoCopyRingFifo Nat).Reserve 2).2.reserved +
      ((⟨[0, 0, 0], 0, 0, 0, 0⟩ : NoCopyRingFifo Nat).Reserve 2).2.committed ≤ 3 :=
  reachable_reserved_add_committed_le 3 _
    (Reachable.step (Reachable.init [0, 0, 0] rfl) (Step.reserve _ 2))

/-- C4: in every reachable state, `writeIndex` equals
`(readIndex + reservedCount + committedCount) mod capacity`. -/
theorem reachable_writeIndex_eq {T : Type} (C : Nat)
    (s : NoCopyRingFifo T) (h : Reachable T C s) :
    s.writeIndex = (s.readIndex + s.reserved + s.committed) % C :=
  (inv_reachable h).2.2.1

/-- C4 witness: reachable state after `Reserve 2` on a fresh capacity-3
FIFO. -/
theorem reachable_writeIndex_eq_witness :
    ((⟨[0, 0, 0], 0, 0, 0, 0⟩ : NoCopyRingFifo Nat).Reserve 2).2.writeIndex =
      (((⟨[0, 0, 0], 0, 0, 0, 0⟩ : NoCopyRingFifo Nat).Reserve 2).2.readIndex +
        ((⟨[0, 0, 0], 0, 0, 0, 0⟩ : NoCopyRingFifo Nat).Reserve 2).2.reserved +
        ((⟨[0, 0, 0], 0, 0, 0, 0⟩ : NoCopyRingFifo Nat).Reserve 2).2.committed) % 3 :=
  reachable_writeIndex_eq 3 _
    (Reachable.step (Reachable.init [0, 0, 0] rfl) (Step.reserve _ 2))

/-- C5: in every reachable state, a failing `Reserve`, `Commit` or
`ReadBlock` leaves the entire state (cursors, counters and buffer) exactly
as it was. -/
theorem failing_calls_preserve_state {T : Type} (C : Nat)
    (s : NoCopyRingFifo T) (size : Nat) (h : Reachable T C s) :
    (∀ e, (s.Reserve size).1 = Except.error e → (s.Reserve size).2 = s) ∧
    (∀ e, (s.Commit size).1 = Except.error e → (s.Commit size).2 = s) ∧
    (∀ e, (s.ReadBlock size).1 = Except.error e → (s.ReadBlock size).2 = s) := by
  have hInv := inv_reachable h
  refine ⟨?_, ?_, ?_⟩
  · intro e he
    by_cases hg : size > s.ReservableSize
    · rw [NoCopyRingFifo.Reserve_fail hg]
    · obtain ⟨db, hok⟩ := Reserve_succeeds s size (by omega)
      rw [hok] at he
      exact Except.noConfusion he
  · intro e he
    by_cases hg : size > s.CommitableSize
    · rw [NoCopyRingFifo.Commit_fail hg]
    · rw [NoCopyRingFifo.Commit_ok s hg] at he
      exact Except.noConfusion he
  · intro e he
    by_cases hg : size > s.committed
    · rw [NoCopyRingFifo.ReadBlock_fail hg]
    · obtain ⟨db, hok⟩ := ReadBlock_succeeds s hInv size (by omega)
      rw [hok] at he
      exact Except.noConfusion he

/-- C5 witness: on a fresh capacity-2 FIFO, `Reserve 5`, `Commit 5` and
`ReadBlock 5` all fail and leave the state unchanged. -/
theorem failing_calls_preserve_state_witness :
    ((⟨[0, 0], 0, 0, 0, 0⟩ : NoCopyRingFifo Nat).Reserve 5).2 =
      (⟨[0, 0], 0, 0, 0, 0⟩ : NoCopyRingFifo Nat) ∧
    ((⟨[0, 0], 0, 0, 0, 0⟩ : NoCopyRingFifo Nat).Commit 5).2 =
      (⟨[0, 0], 0, 0, 0, 0⟩ : NoCopyRingFifo Nat) ∧
    ((⟨[0, 0], 0, 0, 0, 0⟩ : NoCopyRingFifo Nat).ReadBlock 5).2 =
      (⟨[0, 0], 0, 0, 0, 0⟩ : NoCopyRingFifo Nat) :=
  ⟨(failing_calls_preserve_state 2 _ 5 (Reachable.init [0, 0] rfl)).1
      .reserveOverflow rfl,
   (failing_calls_preserve_state 2 _ 5 (Reachable.init [0, 0] rfl)).2.1
      .commitOverflow rfl,
   (failing_calls_preserve_state 2 _ 5 (Reachable.init [0, 0] rfl)).2.2
      .readUnderflow rfl⟩

/-- C6: `Commit size` fails exactly when `size > CommitableSize()`; the
failure is the insufficient-reservation error site, distinct from the two
capacity-exceeded error sites, and leaves the state unchanged; on success
it moves `size` from `reserved` to `committed` and touches nothing else. -/
theorem commit_characterization {T : Type} (s : NoCopyRingFifo T) (size : Nat) :
    ((s.Commit size).1 = Except.error FifoError.commitOverflow ↔
      size > s.CommitableSize) ∧
    (size > s.CommitableSize → (s.Commit size).2 = s) ∧
    (size ≤ s.CommitableSize →
      (s.Commit size).1 = Except.ok () ∧
      (s.Commit size).2.reserved = s.reserved - size ∧
      (s.Commit size).2.committed = s.committed + size ∧
      (s.Commit size).2.readIndex = s.readIndex ∧
      (s.Commit size).2.writeIndex = s.writeIndex ∧
      (s.Commit size).2.ringBuffer = s.ringBuffer) ∧
    (FifoError.commitOverflow ≠ FifoError.reserveOverflow ∧
      FifoError.commitOverflow ≠ FifoError.blockOverflow) := by
  by_cases hg : size > s.CommitableSize
  · rw [NoCopyRingFifo.Commit_fail hg]
    exact ⟨by simp [hg], fun _ => rfl, fun hle => absurd hle (by omega),
      by decide, by decide⟩
  · rw [NoCopyRingFifo.Commit_ok s hg]
    exact ⟨by simp [hg], fun hgt => absurd hgt hg,
      fun _ => ⟨rfl, rfl, rfl, rfl, rfl, rfl⟩, by decide, by decide⟩

/-- C6 witness: with 3 reserved, `Commit 5` fails leaving the state put
and `Commit 2` moves 2 from reserved to committed. -/
theorem commit_characterization_witness :
    (((⟨[0, 0, 0, 0], 0, 3, 3, 0⟩ : NoCopyRingFifo Nat).Commit 5).1 =
        Except.error FifoError.commitOverflow ↔ 5 >
        (⟨[0, 0, 0, 0], 0, 3, 3, 0⟩ : NoCopyRingFifo Nat).CommitableSize) ∧
    ((⟨[0, 0, 0, 0], 0, 3, 3, 0⟩ : NoCopyRingFifo Nat).Commit 5).2 =
      (⟨[0, 0, 0, 0], 0, 3, 3, 0⟩ : NoCopyRingFifo Nat) ∧
    ((⟨[0, 0, 0, 0], 0, 3, 3, 0⟩ : NoCopyRingFifo Nat).Commit 2).2.reserved = 1 ∧
    ((⟨[0, 0, 0, 0], 0, 3, 3, 0⟩ : NoCopyRingFifo Nat).Commit 2).2.committed = 2 :=
  ⟨(commit_characterization (⟨[0, 0, 0, 0], 0, 3, 3, 0⟩ : NoCopyRingFifo Nat) 5).1,
   (commit_characterization (⟨[0, 0, 0, 0], 0, 3, 3, 0⟩ : NoCopyRingFifo Nat) 5).2.1
      (by decide),
   ((commit_characterization (⟨[0, 0, 0, 0], 0, 3, 3, 0⟩ : NoCopyRingFifo Nat) 2).2.2.1
      (by decide)).2.1,
   ((commit_characterization (⟨[0, 0, 0, 0], 0, 3, 3, 0⟩ : NoCopyRingFifo Nat) 2).2.2.1
      (by decide)).2.2.1⟩

/-- C7: in every reachable state the three advertised sizes sum to at most
the capacity, and when no data has been read out since the last Reset or
construction they sum to exactly the capacity. -/
theorem reachable_sizes_partition {T : Type} (C : Nat) (s : NoCopyRingFifo T) :
    (Reachable T C s →
      s.ReservableSize + s.CommitableSize + s.ReadableSize ≤ C) ∧
    (ReachableNoRead T C s →
      s.ReservableSize + s.CommitableSize + s.ReadableSize = C) := by
  have key : ∀ s' : NoCopyRingFifo T, Reachable T C s' →
      s'.ReservableSize + s'.CommitableSize + s'.ReadableSize = C := by
    intro s' h
    obtain ⟨hlen, hsum, -, -⟩ := inv_reachable h
    unfold NoCopyRingFifo.ReservableSize NoCopyRingFifo.CommitableSize
      NoCopyRingFifo.ReadableSize
    omega
  exact ⟨fun h => le_of_eq (key s h),
    fun h => key s (reachableNoRead_reachable h)⟩

/-- C7 witness: fresh capacity-3 FIFO. -/
theorem reachable_sizes_partition_witness :
    ((⟨[0, 0, 0], 0, 0, 0, 0⟩ : NoCopyRingFifo Nat).ReservableSize +
      (⟨[0, 0, 0], 0, 0, 0, 0⟩ : NoCopyRingFifo Nat).CommitableSize +
      (⟨[0, 0, 0], 0, 0, 0, 0⟩ : NoCopyRingFifo Nat).ReadableSize ≤ 3) ∧
    ((⟨[0, 0, 0], 0, 0, 0, 0⟩ : NoCopyRingFifo Nat).ReservableSize +
      (⟨[0, 0, 0], 0, 0, 0, 0⟩ : NoCopyRingFifo Nat).CommitableSize +
      (⟨[0, 0, 0], 0, 0, 0, 0⟩ : NoCopyRingFifo Nat).ReadableSize = 3) :=
  ⟨(reachable_sizes_partition 3 _).1 (Reachable.init [0, 0, 0] rfl),
   (reachable_sizes_partition 3 _).2 (ReachableNoRead.init [0, 0, 0] rfl)⟩

/-- C8: in every state, `Reserve 0` and `ReadBlock 0` succeed, return the
invalid (empty, unsplit) block, and change nothing. -/
theorem zero_size_requests {T : Type} (s : NoCopyRingFifo T) :
    s.Reserve 0 = (Except.ok DataBlock.invalid, s) ∧
    s.ReadBlock 0 = (Except.ok DataBlock.invalid, s) ∧
    DataBlock.invalid.isValid = false ∧
    DataBlock.invalid.isSplit = false :=
  ⟨NoCopyRingFifo.Reserve_zero s, NoCopyRingFifo.ReadBlock_zero s, rfl, rfl⟩

/-- C9: the internal guard of the region-splitting routine fires exactly
on requests larger than the capacity, and after the `Reserve`/`ReadBlock`
size checks have passed in a reachable state, the whole call succeeds, so
the guard is unreachable from those call sites. -/
theorem capacity_guard_unreachable {T : Type} (C : Nat)
    (s : NoCopyRingFifo T) (size index : Nat) (h : Reachable T C s) :
    (size > C → getDataBlock C index size = .error .blockOverflow) ∧
    (size ≤ s.ReservableSize → ∃ db, (s.Reserve size).1 = Except.ok db) ∧
    (size ≤ s.ReadableSize → ∃ db, (s.ReadBlock size).1 = Except.ok db) :=
  ⟨fun hgt => getDataBlock_big C index size hgt,
   fun hle => Reserve_succeeds s size hle,
   fun hle => ReadBlock_succeeds s (inv_reachable h) size hle⟩

/-- C9 witness: the guard fires on an oversized direct request, and a
within-bounds `Reserve` on a fresh FIFO succeeds. -/
theorem capacity_guard_unreachable_witness :
    getDataBlock 2 0 3 = .error .blockOverflow ∧
    ∃ db, ((⟨[0, 0], 0, 0, 0, 0⟩ : NoCopyRingFifo Nat).Reserve 1).1 =
      Except.ok db :=
  ⟨(capacity_guard_unreachable 2 (⟨[0, 0], 0, 0, 0, 0⟩ : NoCopyRingFifo Nat) 3 0
      (Reachable.init [0, 0] rfl)).1 (by decide),
   (capacity_guard_unreachable 2 (⟨[0, 0], 0, 0, 0, 0⟩ : NoCopyRingFifo Nat) 1 0
      (Reachable.init [0, 0] rfl)).2.1 (by decide)⟩

/-- C10: `Commit 0` succeeds in every state — including a fresh or
just-reset FIFO with nothing reserved — and changes nothing. -/
theorem commit_zero_noop {T : Type} (s : NoCopyRingFifo T) :
    s.Commit 0 = (Except.ok (), s) :=
  NoCopyRingFifo.Commit_zero s

/-- Writing a value sequence through an unsplit block and reading the same
block back returns the sequence. -/
theorem write_read_single {T : Type} (buf vals : List T) (i : Nat)
    (hin : i + vals.length ≤ buf.length) :
    readDataBlock
      (writeDataBlock buf (DataBlock.single ⟨i, vals.length⟩) vals)
      (DataBlock.single ⟨i, vals.length⟩) = vals := by
  have hi : i ≤ buf.length := by omega
  have hw : writeDataBlock buf (DataBlock.single ⟨i, vals.length⟩) vals =
      buf.take i ++ vals ++ buf.drop (i + vals.length) := by
    simp [writeDataBlock, DataBlock.single, listOverwrite]
  rw [hw]
  simp only [readDataBlock, DataBlock.single, List.take_zero, List.append_nil]
  rw [List.append_assoc,
    List.drop_left' (by rw [List.length_take]; exact Nat.min_eq_left hi),
    List.take_left' rfl]

/-- Writing a value sequence through a wrapped (two-view) block and
reading the same block back returns the sequence. -/
theorem write_read_double {T : Type} (C : Nat) (buf vals : List T) (i : Nat)
    (hbuf : buf.length = C) (hiC : i < C) (htail : C - i < vals.length)
    (hn : vals.length ≤ C) :
    readDataBlock
      (writeDataBlock buf
        (DataBlock.double ⟨i, C - i⟩ ⟨0, vals.length - (C - i)⟩) vals)
      (DataBlock.double ⟨i, C - i⟩ ⟨0, vals.length - (C - i)⟩) = vals := by
  have hk : vals.length - (C - i) ≤ i := by omega
  have htake : (vals.take (C - i)).length = C - i := by
    rw [List.length_take]
    exact Nat.min_eq_left (Nat.le_of_lt htail)
  have hdk : (vals.drop (C - i)).length = vals.length - (C - i) :=
    List.length_drop _ _
  have h1 : listOverwrite buf i (vals.take (C - i)) =
      buf.take i ++ vals.take (C - i) := by
    unfold listOverwrite
    rw [htake, show i + (C - i) = C from by omega, ← hbuf, List.drop_length,
      List.append_nil]
  have h2 : (vals.drop (C - i)).take (vals.length - (C - i)) =
      vals.drop (C - i) := by
    apply List.take_of_length_le
    rw [hdk]
  have h3 : writeDataBlock buf
      (DataBlock.double ⟨i, C - i⟩ ⟨0, vals.length - (C - i)⟩) vals =
      vals.drop (C - i) ++
        (buf.take i ++ vals.take (C - i)).drop (vals.length - (C - i)) := by
    show listOverwrite (listOverwrite buf i (vals.take (C - i))) 0
        ((vals.drop (C - i)).take (vals.length - (C - i))) = _
    rw [h1, h2]
    unfold listOverwrite
    rw [List.take_zero, List.nil_append, hdk, Nat.zero_add]
  have hlti : (buf.take i).length = i := by
    rw [List.length_take, hbuf]
    exact Nat.min_eq_left (Nat.le_of_lt hiC)
  rw [h3]
  simp only [readDataBlock, DataBlock.double, List.drop_zero]
  have hfirst : (vals.drop (C - i) ++
      (buf.take i ++ vals.take (C - i)).drop (vals.length - (C - i))).drop i =
      vals.take (C - i) := by
    calc (vals.drop (C - i) ++
          (buf.take i ++ vals.take (C - i)).drop (vals.length - (C - i))).drop i
        = (vals.drop (C - i) ++
          (buf.take i ++ vals.take (C - i)).drop (vals.length - (C - i))).drop
            ((vals.length - (C - i)) + (i - (vals.length - (C - i)))) := by
          congr 1
          omega
      _ = ((vals.drop (C - i) ++
          (buf.take i ++ vals.take (C - i)).drop (vals.length - (C - i))).drop
            (vals.length - (C - i))).drop (i - (vals.length - (C - i))) :=
          (List.drop_drop _ _ _).symm
      _ = ((buf.take i ++ vals.take (C - i)).drop (vals.length - (C - i))).drop
            (i - (vals.length - (C - i))) := by
          rw [List.drop_left' hdk]
      _ = (buf.take i ++ vals.take (C - i)).drop
            ((vals.length - (C - i)) + (i - (vals.length - (C - i)))) :=
          List.drop_drop _ _ _
      _ = (buf.take i ++ vals.take (C - i)).drop i := by
          congr 1
          omega
      _ = vals.take (C - i) := by
          rw [List.drop_left' hlti]
  rw [hfirst, List.take_take, Nat.min_self, List.take_left' hdk,
    List.take_append_drop]

/-- C1: starting from any FIFO position with nothing reserved or
committed, writing `vals` (with `vals.length ≤ capacity`) into the views
of a successful `Reserve`, then `Commit`, then `ReadBlock`, reads the same
values back in the same order, whether or not the block wraps. -/
theorem reserve_commit_read_roundtrip {T : Type} (C : Nat)
    (buf vals : List T) (i : Nat) (hbuf : buf.length = C)
    (hi : i < C ∨ i = 0) (hn : vals.length ≤ C) :
    ∃ db s1 s2 db' s3,
      (⟨buf, i, i, 0, 0⟩ : NoCopyRingFifo T).Reserve vals.length =
        (Except.ok db, s1) ∧
      NoCopyRingFifo.Commit
        { s1 with ringBuffer := writeDataBlock s1.ringBuffer db vals }
        vals.length = (Except.ok (), s2) ∧
      s2.ReadBlock vals.length = (Except.ok db', s3) ∧
      readDataBlock s3.ringBuffer db' = vals := by
  have hRS : (⟨buf, i, i, 0, 0⟩ : NoCopyRingFifo T).ReservableSize = C := by
    simp [NoCopyRingFifo.ReservableSize, hbuf]
  rcases Nat.eq_zero_or_pos vals.length with hz | h0
  · have hvals : vals = [] := List.eq_nil_of_length_eq_zero hz
    subst hvals
    refine ⟨_, _, ?s2z, ?dbz, ?s3z, NoCopyRingFifo.Reserve_zero _,
      ?c2z, ?c3z, ?c4z⟩
    case c2z => exact NoCopyRingFifo.Commit_zero _
    case c3z => exact NoCopyRingFifo.ReadBlock_zero _
    case c4z => simp [readDataBlock, DataBlock.invalid]
  · have hiC : i < C := by
      rcases hi with h | rfl
      · exact h
      · omega
    have hg : ¬ vals.length >
        (⟨buf, i, i, 0, 0⟩ : NoCopyRingFifo T).ReservableSize := by
      rw [hRS]
      omega
    rcases le_or_lt vals.length (C - i) with hfit | hsplit
    · -- the block does not wrap
      have hin : i + vals.length ≤ C := by omega
      have hdb : getDataBlock
          (⟨buf, i, i, 0, 0⟩ : NoCopyRingFifo T).ringBuffer.length
          (⟨buf, i, i, 0, 0⟩ : NoCopyRingFifo T).writeIndex vals.length =
          .ok (DataBlock.single ⟨i, vals.length⟩, (i + vals.length) % C) := by
        show getDataBlock buf.length i vals.length = _
        rw [hbuf]
        exact getDataBlock_nosplit C i vals.length h0 hfit
      have hwlen :
          (writeDataBlock buf (DataBlock.single ⟨i, vals.length⟩) vals).length
            = C := by
        simp [writeDataBlock, DataBlock.single, listOverwrite, hbuf]
        omega
      have hdb2 : getDataBlock
          (writeDataBlock buf (DataBlock.single ⟨i, vals.length⟩) vals).length
          i vals.length =
          .ok (DataBlock.single ⟨i, vals.length⟩, (i + vals.length) % C) := by
        rw [hwlen]
        exact getDataBlock_nosplit C i vals.length h0 hfit
      refine ⟨_, _, ?s2a, ?dba, ?s3a, NoCopyRingFifo.Reserve_ok_eq _ hg hdb,
        ?c2a, ?c3a, ?c4a⟩
      case c2a =>
        refine NoCopyRingFifo.Commit_ok _ ?_
        show ¬ vals.length > 0 + vals.length
        omega
      case c3a =>
        refine NoCopyRingFifo.ReadBlock_ok_eq
          ⟨writeDataBlock buf (DataBlock.single ⟨i, vals.length⟩) vals, i,
            (i + vals.length) % C, 0 + vals.length - vals.length,
            0 + vals.length⟩ ?_ hdb2
        show ¬ vals.length > 0 + vals.length
        omega
      case c4a =>
        show readDataBlock
          (writeDataBlock buf (DataBlock.single ⟨i, vals.length⟩) vals)
          (DataBlock.single ⟨i, vals.length⟩) = vals
        exact write_read_single buf vals i (by omega)
    · -- the block wraps
      have hmod : (i + vals.length) % C = vals.length - (C - i) := by
        rw [wrap_mod C i vals.length hiC hn hsplit]
        omega
      have hdb : getDataBlock
          (⟨buf, i, i, 0, 0⟩ : NoCopyRingFifo T).ringBuffer.length
          (⟨buf, i, i, 0, 0⟩ : NoCopyRingFifo T).writeIndex vals.length =
          .ok (DataBlock.double ⟨i, C - i⟩ ⟨0, vals.length - (C - i)⟩,
               vals.length - (C - i)) := by
        show getDataBlock buf.length i vals.length = _
        rw [hbuf, getDataBlock_split C i vals.length h0 hsplit hn, hmod]
      have hwlen :
          (writeDataBlock buf
            (DataBlock.double ⟨i, C - i⟩ ⟨0, vals.length - (C - i)⟩)
            vals).length = C := by
        simp [writeDataBlock, DataBlock.double, listOverwrite, hbuf]
        omega
      have hdb2 : getDataBlock
          (writeDataBlock buf
            (DataBlock.double ⟨i, C - i⟩ ⟨0, vals.length - (C - i)⟩)
            vals).length i vals.length =
          .ok (DataBlock.double ⟨i, C - i⟩ ⟨0, vals.length - (C - i)⟩,
               vals.length - (C - i)) := by
        rw [hwlen, getDataBlock_split C i vals.length h0 hsplit hn, hmod]
      refine ⟨_, _, ?s2b, ?dbb, ?s3b, NoCopyRingFifo.Reserve_ok_eq _ hg hdb,
        ?c2b, ?c3b, ?c4b⟩
      case c2b =>
        refine NoCopyRingFifo.Commit_ok _ ?_
        show ¬ vals.length > 0 + vals.length
        omega
      case c3b =>
        refine NoCopyRingFifo.ReadBlock_ok_eq
          ⟨writeDataBlock buf
              (DataBlock.double ⟨i, C - i⟩ ⟨0, vals.length - (C - i)⟩) vals,
            i, vals.length - (C - i), 0 + vals.length - vals.length,
            0 + vals.length⟩ ?_ hdb2
        show ¬ vals.length > 0 + vals.length
        omega
      case c4b =>
        show readDataBlock
          (writeDataBlock buf
            (DataBlock.double ⟨i, C - i⟩ ⟨0, vals.length - (C - i)⟩) vals)
          (DataBlock.double ⟨i, C - i⟩ ⟨0, vals.length - (C - i)⟩) = vals
        exact write_read_double C buf vals i hbuf hiC hsplit hn

/-- C1 witness: capacity 3, cursors at 2, two values — the block wraps. -/
theorem reserve_commit_read_roundtrip_witness :
    ∃ db s1 s2 db' s3,
      (⟨[9, 9, 9], 2, 2, 0, 0⟩ : NoCopyRingFifo Nat).Reserve 2 =
        (Except.ok db, s1) ∧
      NoCopyRingFifo.Commit
        { s1 with ringBuffer := writeDataBlock s1.ringBuffer db [4, 5] } 2 =
        (Except.ok (), s2) ∧
      s2.ReadBlock 2 = (Except.ok db', s3) ∧
      readDataBlock s3.ringBuffer db' = [4, 5] :=
  reserve_commit_read_roundtrip 3 [9, 9, 9] [4, 5] 2 rfl
    (Or.inl (by decide)) (by decide)

end FifoTemplates
